import Mathlib

/-!
Verification development for the Orthrus redundant-execution runtime.

Shallow embedding of:
  - the key/value engine (src/ae/memcached/orthrus/closure.cpp and
    src/ae/memcached/sei/hashmap.cpp),
  - the log buffer / frame layer (src/include/log.hpp),
  - the SPSC ring (src/include/queue.hpp),
  - the redundancy primitive (src/include/scee.hpp, src/scee.cpp),
  - the request dispatcher fragments (src/ae/memcached/comm.hpp,
    src/ae/memcached/orthrus/server.cpp).

Bytes are modelled as natural numbers below 256; machine arithmetic that can
wrap is taken modulo 2 ^ 32 explicitly.
-/

/- ===================== Key/value engine ===================== -/

/-- Response codes, mirroring the RetType enum of
src/ae/memcached/orthrus/common.hpp. -/
inductive RetType where
  | kError
  | kDeleted
  | kNotFound
  | kStored
  | kCreated
  | kEnd
  | kValue
  deriving DecidableEq, Repr

/-- Keys are byte strings (char ch[KEY_LEN] in closure.hpp); memcmp equality
is list equality. -/
abbrev Key : Type := List Nat

/-- Values are byte strings (char ch[VAL_LEN]). -/
abbrev Val : Type := List Nat

/-- Conversion of one char to uint32 in the djb2 loop: chars are signed on
x86, so bytes at or above 128 sign-extend ((uint32_t)ch[i] in closure.hpp). -/
def charToU32 (b : Nat) : Nat := if b < 128 then b else 2 ^ 32 - 256 + b

/-- djb2 hash of closure.hpp: hash = 5381; hash = ((hash << 5) + hash) + c,
all in uint32 arithmetic. -/
def keyHash (k : Key) : Nat :=
  k.foldl (fun h b => (h * 33 + charToU32 b) % 2 ^ 32) 5381

/-- A bucket chain: each entry_t carries a key, a value and the next pointer;
the chain is the reachable list. -/
abbrev Chain : Type := List (Key × Val)

/-- Hash table state: capacity plus the bucket array (hashmap_t of
closure.cpp). Locks serialize access and are invisible to the sequential
model. -/
structure Hashmap where
  capacity : Nat
  buckets : Nat → Chain

/-- Bucket index: uint32_t hv = key.hash() % capacity. -/
def bucketIndex (m : Hashmap) (k : Key) : Nat := keyHash k % m.capacity

/-- Chain walk of hashmap_t::get: return the value of the first entry whose
key compares equal, else null. -/
def chainGet (l : Chain) (k : Key) : Option Val :=
  match l with
  | [] => none
  | (k0, v0) :: rest => if k0 = k then some v0 else chainGet rest k

/-- Chain walk of hashmap_t::set: on hit overwrite the value of the first
matching entry in place (entry setv) and report the hit; on miss report none
so the caller prepends. -/
def chainOverwrite (l : Chain) (k : Key) (v : Val) : Option Chain :=
  match l with
  | [] => none
  | (k0, v0) :: rest =>
      if k0 = k then some ((k0, v) :: rest)
      else (chainOverwrite rest k v).map (fun t => (k0, v0) :: t)

/-- Chain walk of the sei hashmap_t::del: unlink the first matching entry;
none when the key is absent. -/
def chainUnlink (l : Chain) (k : Key) : Option Chain :=
  match l with
  | [] => none
  | (k0, v0) :: rest =>
      if k0 = k then some rest
      else (chainUnlink rest k).map (fun t => (k0, v0) :: t)

/-- Functional update of one bucket. -/
def updateBucket (m : Hashmap) (i : Nat) (l : Chain) : Hashmap :=
  { m with buckets := fun j => if j = i then l else m.buckets j }

/-- hashmap_t::get of src/ae/memcached/orthrus/closure.cpp lines 60-71 (and
the identical walk of src/ae/memcached/sei/hashmap.cpp lines 59-70): take the
bucket lock, walk the chain, return the value bytes or null. -/
def hashmap_get (m : Hashmap) (k : Key) : Option Val :=
  chainGet (m.buckets (bucketIndex m k)) k

/-- State-passing form of hashmap_t::get: the source performs no store to the
table, so the returned table is the input table unchanged. -/
def hashmap_get_st (m : Hashmap) (k : Key) : Option Val × Hashmap :=
  (hashmap_get m k, m)

/-- hashmap_t::set of src/ae/memcached/orthrus/closure.cpp lines 73-91 (and
src/ae/memcached/sei/hashmap.cpp lines 72-91): walk the chain; on hit
overwrite in place and return kStored; on miss prepend a fresh entry whose
next is the old head and return kCreated. -/
def hashmap_set (m : Hashmap) (k : Key) (v : Val) : Hashmap × RetType :=
  match chainOverwrite (m.buckets (bucketIndex m k)) k v with
  | some l => (updateBucket m (bucketIndex m k) l, RetType.kStored)
  | none =>
      (updateBucket m (bucketIndex m k)
        ((k, v) :: m.buckets (bucketIndex m k)), RetType.kCreated)

/-- hashmap_t::del of src/ae/memcached/sei/hashmap.cpp lines 93-107: walk the
chain; on hit unlink and free, return kDeleted; on miss return kNotFound. -/
def hashmap_del_sei (m : Hashmap) (k : Key) : Hashmap × RetType :=
  match chainUnlink (m.buckets (bucketIndex m k)) k with
  | some l => (updateBucket m (bucketIndex m k) l, RetType.kDeleted)
  | none => (m, RetType.kNotFound)

/-- hashmap_t::del of src/ae/memcached/orthrus/closure.cpp lines 93-113: the
body is std::abort() with the chain walk commented out, so every call aborts
the process; none models the abort, a value would model a returned code. -/
def hashmap_del_orthrus (_ : Hashmap) (_ : Key) : Option (Hashmap × RetType) :=
  none

/- ===================== Chain lemmas ===================== -/

/-- Keys stored along a chain. -/
def chainKeys (l : Chain) : List Key := l.map Prod.fst

lemma chainOverwrite_eq_none (l : Chain) (k : Key) (v : Val) :
    chainOverwrite l k v = none ↔ chainGet l k = none := by
  induction l with
  | nil => simp [chainOverwrite, chainGet]
  | cons hd tl ih =>
      obtain ⟨k0, v0⟩ := hd
      by_cases h : k0 = k <;> simp [chainOverwrite, chainGet, h, ih]

lemma chainGet_overwrite (l l2 : Chain) (k : Key) (v : Val)
    (h : chainOverwrite l k v = some l2) : chainGet l2 k = some v := by
  induction l generalizing l2 with
  | nil => simp [chainOverwrite] at h
  | cons hd tl ih =>
      obtain ⟨k0, v0⟩ := hd
      by_cases hk : k0 = k
      · simp only [chainOverwrite, if_pos hk, Option.some.injEq] at h
        subst h; simp [chainGet, hk]
      · simp only [chainOverwrite, if_neg hk, Option.map_eq_some'] at h
        obtain ⟨t, ht, rfl⟩ := h
        simp [chainGet, hk, ih t ht]

lemma chainGet_overwrite_ne (l l2 : Chain) (k k2 : Key) (v : Val)
    (hne : k2 ≠ k) (h : chainOverwrite l k v = some l2) :
    chainGet l2 k2 = chainGet l k2 := by
  induction l generalizing l2 with
  | nil => simp [chainOverwrite] at h
  | cons hd tl ih =>
      obtain ⟨k0, v0⟩ := hd
      by_cases hk : k0 = k
      · simp only [chainOverwrite, if_pos hk, Option.some.injEq] at h
        subst h
        have hk2 : ¬ k0 = k2 := by rw [hk]; exact fun hc => hne hc.symm
        simp [chainGet, hk2]
      · simp only [chainOverwrite, if_neg hk, Option.map_eq_some'] at h
        obtain ⟨t, ht, rfl⟩ := h
        by_cases hk2 : k0 = k2 <;> simp [chainGet, hk2, ih t ht]

lemma chainKeys_overwrite (l l2 : Chain) (k : Key) (v : Val)
    (h : chainOverwrite l k v = some l2) : chainKeys l2 = chainKeys l := by
  induction l generalizing l2 with
  | nil => simp [chainOverwrite] at h
  | cons hd tl ih =>
      obtain ⟨k0, v0⟩ := hd
      by_cases hk : k0 = k
      · simp only [chainOverwrite, if_pos hk, Option.some.injEq] at h
        subst h; simp [chainKeys]
      · simp only [chainOverwrite, if_neg hk, Option.map_eq_some'] at h
        obtain ⟨t, ht, rfl⟩ := h
        simp [chainKeys] at ih ⊢
        exact ih t ht

lemma chainUnlink_eq_none (l : Chain) (k : Key) :
    chainUnlink l k = none ↔ chainGet l k = none := by
  induction l with
  | nil => simp [chainUnlink, chainGet]
  | cons hd tl ih =>
      obtain ⟨k0, v0⟩ := hd
      by_cases h : k0 = k <;> simp [chainUnlink, chainGet, h, ih]

lemma chainGet_eq_none_of_not_mem (l : Chain) (k : Key)
    (h : k ∉ chainKeys l) : chainGet l k = none := by
  induction l with
  | nil => simp [chainGet]
  | cons hd tl ih =>
      obtain ⟨k0, v0⟩ := hd
      simp only [chainKeys, List.map_cons, List.mem_cons] at h
      push_neg at h
      have hk : ¬ k0 = k := fun hc => h.1 hc.symm
      simpa [chainGet, hk] using ih (by simpa [chainKeys] using h.2)

lemma chainGet_unlink_of_nodup (l : Chain) (k : Key) :
    ∀ l2, (chainKeys l).Nodup → chainUnlink l k = some l2 →
      chainGet l2 k = none := by
  induction l with
  | nil => intro l2 _ h; simp [chainUnlink] at h
  | cons hd tl ih =>
      obtain ⟨k0, v0⟩ := hd
      intro l2 hnd h
      simp only [chainKeys, List.map_cons, List.nodup_cons] at hnd
      by_cases hk : k0 = k
      · simp only [chainUnlink, if_pos hk, Option.some.injEq] at h
        subst h
        exact chainGet_eq_none_of_not_mem _ _ (by rw [← hk]; exact hnd.1)
      · simp only [chainUnlink, if_neg hk, Option.map_eq_some'] at h
        obtain ⟨t, ht, rfl⟩ := h
        have hnd2 : (chainKeys tl).Nodup := hnd.2
        simpa [chainGet, hk] using ih t hnd2 ht

lemma capacity_updateBucket (m : Hashmap) (i : Nat) (l : Chain) :
    (updateBucket m i l).capacity = m.capacity := rfl

lemma bucketIndex_updateBucket (m : Hashmap) (i : Nat) (l : Chain) (k : Key) :
    bucketIndex (updateBucket m i l) k = bucketIndex m k := rfl

lemma chainGet_eq_none_iff_not_mem (l : Chain) (k : Key) :
    chainGet l k = none ↔ k ∉ chainKeys l := by
  induction l with
  | nil => simp [chainGet, chainKeys]
  | cons hd tl ih =>
      obtain ⟨k0, v0⟩ := hd
      by_cases h : k0 = k <;>
        simp [chainGet, chainKeys, h, ih, eq_comm (a := k) (b := k0)]

lemma capacity_hashmap_set (m : Hashmap) (k : Key) (v : Val) :
    (hashmap_set m k v).1.capacity = m.capacity := by
  unfold hashmap_set
  rcases chainOverwrite (m.buckets (bucketIndex m k)) k v with _ | l2 <;> rfl

lemma bucketIndex_hashmap_set (m : Hashmap) (k k2 : Key) (v : Val) :
    bucketIndex (hashmap_set m k v).1 k2 = bucketIndex m k2 := by
  unfold bucketIndex
  rw [capacity_hashmap_set]

lemma buckets_hashmap_set_self (m : Hashmap) (k : Key) (v : Val) :
    (hashmap_set m k v).1.buckets (bucketIndex m k)
      = match chainOverwrite (m.buckets (bucketIndex m k)) k v with
        | some l => l
        | none => (k, v) :: m.buckets (bucketIndex m k) := by
  unfold hashmap_set
  rcases hov : chainOverwrite (m.buckets (bucketIndex m k)) k v with _ | l2 <;>
    simp [hov, updateBucket]

lemma hashmap_get_after_set (m : Hashmap) (k : Key) (v : Val) :
    hashmap_get (hashmap_set m k v).1 k = some v := by
  unfold hashmap_get
  rw [bucketIndex_hashmap_set, buckets_hashmap_set_self]
  rcases hov : chainOverwrite (m.buckets (bucketIndex m k)) k v with _ | l2
  · simp [chainGet]
  · exact chainGet_overwrite _ _ _ _ hov

lemma nodup_after_set (m : Hashmap) (k : Key) (v : Val)
    (hnd : (chainKeys (m.buckets (bucketIndex m k))).Nodup) :
    (chainKeys ((hashmap_set m k v).1.buckets (bucketIndex m k))).Nodup := by
  rw [buckets_hashmap_set_self]
  rcases hov : chainOverwrite (m.buckets (bucketIndex m k)) k v with _ | l2
  · have hget := (chainOverwrite_eq_none _ _ v).mp hov
    have hmem := (chainGet_eq_none_iff_not_mem _ _).mp hget
    show (k :: chainKeys (m.buckets (bucketIndex m k))).Nodup
    exact List.nodup_cons.mpr ⟨hmem, hnd⟩
  · rw [chainKeys_overwrite _ _ _ _ hov]
    exact hnd

lemma hashmap_del_sei_eq_notFound (m : Hashmap) (k : Key)
    (h : hashmap_get m k = none) :
    hashmap_del_sei m k = (m, RetType.kNotFound) := by
  unfold hashmap_del_sei
  rw [(chainUnlink_eq_none _ _).mpr h]

lemma hashmap_del_sei_of_get_some (m : Hashmap) (k : Key)
    (hnd : (chainKeys (m.buckets (bucketIndex m k))).Nodup)
    (hsome : hashmap_get m k ≠ none) :
    (hashmap_del_sei m k).2 = RetType.kDeleted ∧
    hashmap_get (hashmap_del_sei m k).1 k = none ∧
    (hashmap_del_sei (hashmap_del_sei m k).1 k).2 = RetType.kNotFound := by
  rcases hun : chainUnlink (m.buckets (bucketIndex m k)) k with _ | l2
  · exact absurd ((chainUnlink_eq_none _ _).mp hun) hsome
  · have hdel :
        hashmap_del_sei m k
          = (updateBucket m (bucketIndex m k) l2, RetType.kDeleted) := by
      unfold hashmap_del_sei
      rw [hun]
    have hnone : chainGet l2 k = none :=
      chainGet_unlink_of_nodup _ k l2 hnd hun
    have hget2 : hashmap_get (hashmap_del_sei m k).1 k = none := by
      rw [hdel]
      simpa [hashmap_get, bucketIndex, updateBucket] using hnone
    refine ⟨by rw [hdel], hget2, ?_⟩
    rw [hashmap_del_sei_eq_notFound _ _ hget2]

/-- C7: for every table state, key k and value v, executing SET(k, v) and
then GET(k) with no intervening operation on k returns exactly the value v
(the VALUE v response), for any other keys present and however often k was
set before. -/
theorem C7_set_then_get_roundtrip (m : Hashmap) (k : Key) (v : Val) :
    hashmap_get (hashmap_set m k v).1 k = some v :=
  hashmap_get_after_set m k v

/-- C6: hashmap_set on a table whose bucket chain for k contains no entry
with key k prepends a new entry to the chain and returns kCreated; on a
table that already contains k it overwrites in place and returns kStored;
a SET always leaves k present, so the first SET for an unseen key answers
CREATED and every subsequent SET for the same key answers STORED. -/
theorem C6_set_insert_vs_update (m : Hashmap) (k : Key) (v : Val) :
    (hashmap_get m k = none →
      (hashmap_set m k v).2 = RetType.kCreated ∧
      (hashmap_set m k v).1.buckets (bucketIndex m k)
        = (k, v) :: m.buckets (bucketIndex m k)) ∧
    (hashmap_get m k ≠ none → (hashmap_set m k v).2 = RetType.kStored) ∧
    hashmap_get (hashmap_set m k v).1 k = some v ∧
    (∀ v2, (hashmap_set (hashmap_set m k v).1 k v2).2 = RetType.kStored) := by
  have hretc :
      ∀ m2 : Hashmap, ∀ k2 v2, hashmap_get m2 k2 ≠ none →
        (hashmap_set m2 k2 v2).2 = RetType.kStored := by
    intro m2 k2 v2 h
    unfold hashmap_set
    rcases hov : chainOverwrite (m2.buckets (bucketIndex m2 k2)) k2 v2 with _ | l2
    · exact absurd ((chainOverwrite_eq_none _ _ _).mp hov) h
    · rfl
  refine ⟨?_, hretc m k v, hashmap_get_after_set m k v, ?_⟩
  · intro hnone
    have hov : chainOverwrite (m.buckets (bucketIndex m k)) k v = none :=
      (chainOverwrite_eq_none _ _ _).mpr hnone
    constructor
    · unfold hashmap_set
      rw [hov]
    · rw [buckets_hashmap_set_self, hov]
  · intro v2
    apply hretc
    rw [hashmap_get_after_set m k v]
    simp

/-- C6 witness: on a concrete empty table the first SET answers kCreated,
prepends, leaves the key readable, and a second SET answers kStored. -/
theorem C6_witness :
    ((hashmap_set ⟨4, fun _ => []⟩ [97, 98, 99, 100] [1, 2]).2
        = RetType.kCreated ∧
      (hashmap_set ⟨4, fun _ => []⟩ [97, 98, 99, 100] [1, 2]).1.buckets
          (bucketIndex ⟨4, fun _ => []⟩ [97, 98, 99, 100])
        = [([97, 98, 99, 100], [1, 2])]) ∧
    (hashmap_set
        (hashmap_set ⟨4, fun _ => []⟩ [97, 98, 99, 100] [1, 2]).1
        [97, 98, 99, 100] [3, 4]).2 = RetType.kStored := by
  have h := C6_set_insert_vs_update ⟨4, fun _ => []⟩ [97, 98, 99, 100] [1, 2]
  exact ⟨h.1 (by decide), h.2.2.2 [3, 4]⟩

/-- C10: hashmap_get performs no store, so the table after a GET is the table
before it; and hashmap_set changes only the binding of its key: for every
other key the GET result is unchanged by the SET. -/
theorem C10_get_pure_set_frame (m : Hashmap) (k k2 : Key) (v : Val)
    (hne : k2 ≠ k) :
    (hashmap_get_st m k).2 = m ∧
    hashmap_get (hashmap_set m k v).1 k2 = hashmap_get m k2 := by
  refine ⟨rfl, ?_⟩
  unfold hashmap_get
  rw [bucketIndex_hashmap_set]
  by_cases hb : bucketIndex m k2 = bucketIndex m k
  · rw [hb, buckets_hashmap_set_self]
    rcases hov : chainOverwrite (m.buckets (bucketIndex m k)) k v with _ | l2
    · have hk : ¬ k = k2 := fun hc => hne hc.symm
      simp [chainGet, hk]
    · exact chainGet_overwrite_ne _ _ _ _ _ hne hov
  · have hrw : (hashmap_set m k v).1.buckets (bucketIndex m k2)
        = m.buckets (bucketIndex m k2) := by
      unfold hashmap_set
      rcases chainOverwrite (m.buckets (bucketIndex m k)) k v with _ | l2 <;>
        simp [updateBucket, hb]
    rw [hrw]

/-- C10 witness: concrete instance with two distinct keys that share the
same (only) bucket. -/
theorem C10_witness :
    ([5] : Key) ≠ [7] ∧
    ((hashmap_get_st ⟨1, fun _ => []⟩ [7]).2 = ⟨1, fun _ => []⟩ ∧
      hashmap_get (hashmap_set ⟨1, fun _ => []⟩ [7] [1]).1 [5]
        = hashmap_get ⟨1, fun _ => []⟩ [5]) :=
  ⟨by decide, C10_get_pure_set_frame ⟨1, fun _ => []⟩ [7] [5] [1] (by decide)⟩

/-- C8 (counterexample): the redundancy-variant del
(src/ae/memcached/orthrus/closure.cpp lines 93-113) is std::abort(); on a
concrete table that does contain the key, DEL aborts instead of unlinking
the entry and returning kDeleted, refuting the claim as stated for that
variant. -/
theorem C8_counterexample :
    hashmap_get
        (hashmap_set ⟨4, fun _ => []⟩ [97, 98, 99, 100] [1, 2, 3, 4]).1
        [97, 98, 99, 100] = some [1, 2, 3, 4] ∧
    hashmap_del_orthrus
        (hashmap_set ⟨4, fun _ => []⟩ [97, 98, 99, 100] [1, 2, 3, 4]).1
        [97, 98, 99, 100] = none := by
  exact ⟨by decide, rfl⟩

/-- C8 (amended): in the sei variant, DEL walks the chain under the bucket
lock; on a table containing the key it unlinks the entry and returns
kDeleted, otherwise it returns kNotFound and leaves the table unchanged;
DEL after a matching SET returns kDeleted and the immediately following DEL
or GET returns kNotFound respectively null. In the orthrus redundancy
variant, del unconditionally aborts the process. -/
theorem C8_del_amended (m : Hashmap) (k : Key) (v : Val)
    (hnd : (chainKeys (m.buckets (bucketIndex m k))).Nodup) :
    (hashmap_get m k ≠ none → (hashmap_del_sei m k).2 = RetType.kDeleted) ∧
    (hashmap_get m k = none →
      (hashmap_del_sei m k).2 = RetType.kNotFound ∧
      (hashmap_del_sei m k).1 = m) ∧
    ((hashmap_del_sei (hashmap_set m k v).1 k).2 = RetType.kDeleted ∧
      hashmap_get (hashmap_del_sei (hashmap_set m k v).1 k).1 k = none ∧
      (hashmap_del_sei
        (hashmap_del_sei (hashmap_set m k v).1 k).1 k).2
        = RetType.kNotFound) ∧
    (∀ m2 k2, hashmap_del_orthrus m2 k2 = none) := by
  refine ⟨?_, ?_, ?_, fun _ _ => rfl⟩
  · intro hsome
    rcases hun : chainUnlink (m.buckets (bucketIndex m k)) k with _ | l2
    · exact absurd ((chainUnlink_eq_none _ _).mp hun) hsome
    · unfold hashmap_del_sei
      rw [hun]
  · intro hnone
    rw [hashmap_del_sei_eq_notFound _ _ hnone]
    exact ⟨rfl, rfl⟩
  · have hnd2 :
        (chainKeys
          ((hashmap_set m k v).1.buckets
            (bucketIndex (hashmap_set m k v).1 k))).Nodup := by
      rw [bucketIndex_hashmap_set]
      exact nodup_after_set m k v hnd
    have hsome : hashmap_get (hashmap_set m k v).1 k ≠ none := by
      rw [hashmap_get_after_set]
      simp
    exact hashmap_del_sei_of_get_some _ _ hnd2 hsome

/-- C8 witness: on a concrete table, SET then DEL answers kDeleted, the
following GET answers null and the following DEL answers kNotFound. -/
theorem C8_witness :
    (chainKeys
      ((⟨4, fun _ => []⟩ : Hashmap).buckets
        (bucketIndex ⟨4, fun _ => []⟩ [97, 98, 99, 100]))).Nodup ∧
    ((hashmap_del_sei
        (hashmap_set ⟨4, fun _ => []⟩ [97, 98, 99, 100] [1, 2]).1
        [97, 98, 99, 100]).2 = RetType.kDeleted ∧
      hashmap_get
        (hashmap_del_sei
          (hashmap_set ⟨4, fun _ => []⟩ [97, 98, 99, 100] [1, 2]).1
          [97, 98, 99, 100]).1 [97, 98, 99, 100] = none ∧
      (hashmap_del_sei
        (hashmap_del_sei
          (hashmap_set ⟨4, fun _ => []⟩ [97, 98, 99, 100] [1, 2]).1
          [97, 98, 99, 100]).1 [97, 98, 99, 100]).2 = RetType.kNotFound) :=
  ⟨by decide,
    (C8_del_amended ⟨4, fun _ => []⟩ [97, 98, 99, 100] [1, 2]
      (by decide)).2.2.1⟩

/- ===================== SPSC ring (src/include/queue.hpp) ===================== -/

/-- Bounded single-producer single-consumer ring of src/include/queue.hpp
lines 13-52: a power-of-two capacity, a buffer, and two monotone indices;
slots are addressed by index AND (Capacity - 1). Indices are size_t in the
source; executions keep tail less than or equal to head, so Nat subtraction
agrees with the unsigned subtraction head - tail. -/
structure SpscQueue (alpha : Type) (C : Nat) where
  head : Nat
  tail : Nat
  buf : Nat → alpha

/-- Method push of SpscQueue: fail and leave the queue unchanged when
head - tail has reached Capacity, else store at head AND (Capacity - 1) and
advance head. -/
def SpscQueue.push {alpha C} (q : SpscQueue alpha C) (v : alpha) :
    Bool × SpscQueue alpha C :=
  if C ≤ q.head - q.tail then (false, q)
  else
    (true,
      { q with
          buf := fun i => if i = (q.head &&& (C - 1)) then v else q.buf i,
          head := q.head + 1 })

/-- Method pop of SpscQueue: fail when tail equals head, else read the slot
at tail AND (Capacity - 1) and advance tail. -/
def SpscQueue.pop {alpha C} (q : SpscQueue alpha C) :
    Option alpha × SpscQueue alpha C :=
  if q.tail = q.head then (none, q)
  else (some (q.buf (q.tail &&& (C - 1))), { q with tail := q.tail + 1 })

/-- Well-formedness maintained by every execution: tail never passes head
and the occupancy never exceeds the capacity. -/
def SpscQueue.Wf {alpha C} (q : SpscQueue alpha C) : Prop :=
  q.tail ≤ q.head ∧ q.head - q.tail ≤ C

instance {alpha C} (q : SpscQueue alpha C) : Decidable q.Wf :=
  inferInstanceAs (Decidable (_ ∧ _))

/-- Abstract contents of the ring: the slots from tail (inclusive) to head
(exclusive), oldest first. -/
def absQ {alpha C} (q : SpscQueue alpha C) : List alpha :=
  (List.range (q.head - q.tail)).map (fun i => q.buf ((q.tail + i) &&& (C - 1)))

lemma and_mask_eq_mod (k x : Nat) : x &&& (2 ^ k - 1) = x % 2 ^ k :=
  Nat.and_pow_two_sub_one_eq_mod x k

lemma slot_ne_of_span (C t i d : Nat) (_hC : 0 < C) (hi : i < d)
    (hspan : d - i < C) : (t + i) % C ≠ (t + d) % C := by
  intro h
  have hmod : Nat.ModEq C (t + i) (t + d) := h
  have hdvd : C ∣ (t + d) - (t + i) :=
    (Nat.modEq_iff_dvd' (by omega)).mp hmod
  have heq : (t + d) - (t + i) = d - i := by omega
  rw [heq] at hdvd
  have := Nat.le_of_dvd (by omega) hdvd
  omega

lemma absQ_push {alpha k : _} (q : SpscQueue alpha (2 ^ k)) (v : alpha)
    (hwf : q.Wf) (hroom : q.head - q.tail < 2 ^ k) :
    absQ (q.push v).2 = absQ q ++ [v] := by
  obtain ⟨hle, hcap⟩ := hwf
  have hC : 0 < 2 ^ k := Nat.pos_pow_of_pos k (by omega)
  unfold SpscQueue.push
  rw [if_neg (by omega)]
  unfold absQ
  simp only [and_mask_eq_mod]
  have hd : q.head + 1 - q.tail = (q.head - q.tail) + 1 := by omega
  rw [hd, List.range_succ, List.map_append]
  congr 1
  · apply List.map_congr_left
    intro i hi
    rw [List.mem_range] at hi
    have hne : (q.tail + i) % 2 ^ k ≠ q.head % 2 ^ k := by
      have hh : q.head = q.tail + (q.head - q.tail) := by omega
      rw [hh]
      exact slot_ne_of_span (2 ^ k) q.tail i (q.head - q.tail) hC hi
        (by omega)
    rw [if_neg hne]
  · have hh : q.tail + (q.head - q.tail) = q.head := by omega
    rw [List.map_singleton, hh, if_pos rfl]

lemma absQ_pop {alpha k : _} (q : SpscQueue alpha (2 ^ k))
    (hwf : q.Wf) (hne : q.tail ≠ q.head) :
    (q.pop).1 = some (q.buf (q.tail &&& (2 ^ k - 1))) ∧
    absQ q = q.buf (q.tail &&& (2 ^ k - 1)) :: absQ (q.pop).2 := by
  obtain ⟨hle, hcap⟩ := hwf
  unfold SpscQueue.pop
  rw [if_neg hne]
  refine ⟨rfl, ?_⟩
  unfold absQ
  simp only [and_mask_eq_mod]
  have hd : q.head - q.tail = (q.head - (q.tail + 1)) + 1 := by omega
  rw [hd, List.range_succ_eq_map, List.map_cons, List.map_map]
  congr 1
  apply List.map_congr_left
  intro i hi
  have harith : q.tail + Nat.succ i = q.tail + 1 + i := by omega
  simp only [Function.comp_apply, harith]

lemma wf_push {alpha C : _} (q : SpscQueue alpha C) (v : alpha)
    (hwf : q.Wf) : (q.push v).2.Wf := by
  obtain ⟨hle, hcap⟩ := hwf
  unfold SpscQueue.push
  by_cases h : C ≤ q.head - q.tail
  · rw [if_pos h]; exact ⟨hle, hcap⟩
  · rw [if_neg h]
    refine ⟨?_, ?_⟩
    · show q.tail ≤ q.head + 1
      omega
    · show q.head + 1 - q.tail ≤ C
      omega

lemma wf_pop {alpha C : _} (q : SpscQueue alpha C) (hwf : q.Wf) :
    (q.pop).2.Wf := by
  obtain ⟨hle, hcap⟩ := hwf
  unfold SpscQueue.pop
  by_cases h : q.tail = q.head
  · rw [if_pos h]; exact ⟨hle, hcap⟩
  · rw [if_neg h]
    refine ⟨?_, ?_⟩
    · show q.tail + 1 ≤ q.head
      omega
    · show q.head - (q.tail + 1) ≤ C
      omega

/-- One client operation on the ring. -/
inductive QOp (alpha : Type) where
  | push (v : alpha)
  | pop

/-- Execution state: the ring plus the history of accepted enqueues and of
dequeued values. -/
structure RunState (alpha : Type) (C : Nat) where
  q : SpscQueue alpha C
  pushedVals : List alpha
  poppedVals : List alpha

/-- One step of the producer/consumer pair: push records the value when
accepted; pop records the value when one is returned. -/
def stepOp {alpha C} (s : RunState alpha C) : QOp alpha → RunState alpha C
  | QOp.push v =>
      let r := s.q.push v
      { q := r.2,
        pushedVals := if r.1 then s.pushedVals ++ [v] else s.pushedVals,
        poppedVals := s.poppedVals }
  | QOp.pop =>
      let r := s.q.pop
      { q := r.2,
        pushedVals := s.pushedVals,
        poppedVals :=
          match r.1 with
          | some v => s.poppedVals ++ [v]
          | none => s.poppedVals }

/-- Initial state: both indices zero (the atomics are value-initialized),
no history. -/
def initState (alpha : Type) (C : Nat) (d : alpha) : RunState alpha C :=
  ⟨⟨0, 0, fun _ => d⟩, [], []⟩

/-- Run a whole operation sequence from the empty ring. -/
def runOps {alpha : Type} (C : Nat) (d : alpha) (ops : List (QOp alpha)) :
    RunState alpha C :=
  ops.foldl stepOp (initState alpha C d)

/-- Linearized invariant: the ring is well-formed and the accepted pushes
are exactly the pops followed by the current contents. -/
def RunInv {alpha C} (s : RunState alpha C) : Prop :=
  s.q.Wf ∧ s.pushedVals = s.poppedVals ++ absQ s.q

lemma runInv_step {alpha k : _} (s : RunState alpha (2 ^ k))
    (hinv : RunInv s) (op : QOp alpha) : RunInv (stepOp s op) := by
  obtain ⟨hwf, hhist⟩ := hinv
  cases op with
  | push v =>
      by_cases h : (2 ^ k : Nat) ≤ s.q.head - s.q.tail
      · have hfail : s.q.push v = (false, s.q) := by
          unfold SpscQueue.push
          rw [if_pos h]
        constructor
        · show (s.q.push v).2.Wf
          rw [hfail]; exact hwf
        · show (if (s.q.push v).1 then s.pushedVals ++ [v] else s.pushedVals)
            = s.poppedVals ++ absQ (s.q.push v).2
          rw [hfail]
          simpa using hhist
      · constructor
        · exact wf_push _ _ hwf
        · have hacc : (s.q.push v).1 = true := by
            unfold SpscQueue.push
            rw [if_neg h]
          show (if (s.q.push v).1 then s.pushedVals ++ [v] else s.pushedVals)
            = s.poppedVals ++ absQ (s.q.push v).2
          rw [hacc, if_pos rfl, absQ_push s.q v hwf (by omega), hhist,
            List.append_assoc]
  | pop =>
      by_cases h : s.q.tail = s.q.head
      · have hfail : s.q.pop = (none, s.q) := by
          unfold SpscQueue.pop
          rw [if_pos h]
        constructor
        · show (s.q.pop).2.Wf
          rw [hfail]; exact hwf
        · show s.pushedVals
            = (match (s.q.pop).1 with
               | some v => s.poppedVals ++ [v]
               | none => s.poppedVals) ++ absQ (s.q.pop).2
          rw [hfail]
          simpa using hhist
      · obtain ⟨hval, habs⟩ := absQ_pop s.q hwf h
        constructor
        · exact wf_pop _ hwf
        · show s.pushedVals
            = (match (s.q.pop).1 with
               | some v => s.poppedVals ++ [v]
               | none => s.poppedVals) ++ absQ (s.q.pop).2
          rw [hval, hhist, habs]
          simp

/-- C5: for the SpscQueue with power-of-two capacity C = 2 ^ k, push returns
false and leaves the queue unchanged exactly when head - tail has reached C,
pop returns false exactly when head equals tail, both operations preserve
head - tail at most C, and over any operation sequence from the empty ring
the accepted pushes are exactly the pops followed by the residual contents:
FIFO order, nothing lost, nothing dequeued twice. -/
theorem C5_spsc_queue_spec (alpha : Type) (k : Nat) (d : alpha) :
    (∀ q : SpscQueue alpha (2 ^ k), ∀ v, q.Wf →
      (((q.push v).1 = false ↔ q.head - q.tail = 2 ^ k) ∧
        ((q.push v).1 = false → (q.push v).2 = q) ∧
        (q.push v).2.Wf)) ∧
    (∀ q : SpscQueue alpha (2 ^ k),
      ((q.pop).1 = none ↔ q.head = q.tail) ∧
      ((q.pop).1 = none → (q.pop).2 = q) ∧
      (q.Wf → (q.pop).2.Wf)) ∧
    (∀ ops : List (QOp alpha),
      (runOps (2 ^ k) d ops).q.Wf ∧
      (runOps (2 ^ k) d ops).pushedVals
        = (runOps (2 ^ k) d ops).poppedVals
            ++ absQ (runOps (2 ^ k) d ops).q) := by
  refine ⟨?_, ?_, ?_⟩
  · intro q v hwf
    obtain ⟨hle, hcap⟩ := hwf
    by_cases h : (2 ^ k : Nat) ≤ q.head - q.tail
    · have hfail : q.push v = (false, q) := by
        unfold SpscQueue.push
        rw [if_pos h]
      rw [hfail]
      exact ⟨by simp; omega, fun _ => rfl, ⟨hle, hcap⟩⟩
    · have hok : (q.push v).1 = true := by
        unfold SpscQueue.push
        rw [if_neg h]
      refine ⟨?_, ?_, wf_push _ _ ⟨hle, hcap⟩⟩
      · rw [hok]
        constructor
        · intro hx; cases hx
        · intro hx; omega
      · rw [hok]
        intro hx; cases hx
  · intro q
    by_cases h : q.tail = q.head
    · have hfail : q.pop = (none, q) := by
        unfold SpscQueue.pop
        rw [if_pos h]
      rw [hfail]
      exact ⟨by simp [h], fun _ => rfl, fun hwf => hwf⟩
    · have hok : q.pop
          = (some (q.buf (q.tail &&& (2 ^ k - 1))),
             { q with tail := q.tail + 1 }) := by
        unfold SpscQueue.pop
        rw [if_neg h]
      refine ⟨?_, ?_, fun hwf => wf_pop _ hwf⟩
      · rw [hok]
        simp
        exact fun hx => absurd hx.symm h
      · rw [hok]
        intro hx; cases hx
  · intro ops
    have hinv : RunInv (runOps (2 ^ k) d ops) := by
      unfold runOps
      induction ops using List.reverseRecOn with
      | nil =>
          refine ⟨⟨Nat.le_refl 0, Nat.zero_le _⟩, ?_⟩
          simp [initState, absQ]
      | append_singleton xs x ih =>
          rw [List.foldl_append, List.foldl_cons, List.foldl_nil]
          exact runInv_step _ ih x
    exact hinv

/-- C5 witness: a concrete run on capacity 2 with three pushes (the third
refused at full occupancy) and two pops satisfies the invariant and the
history identity. -/
theorem C5_witness :
    ((runOps (2 ^ 1) (0 : Nat)
        [QOp.push 5, QOp.push 6, QOp.push 7, QOp.pop, QOp.pop]).q.Wf ∧
      (runOps (2 ^ 1) (0 : Nat)
        [QOp.push 5, QOp.push 6, QOp.push 7, QOp.pop, QOp.pop]).pushedVals
        = (runOps (2 ^ 1) (0 : Nat)
            [QOp.push 5, QOp.push 6, QOp.push 7, QOp.pop, QOp.pop]).poppedVals
            ++ absQ (runOps (2 ^ 1) (0 : Nat)
                [QOp.push 5, QOp.push 6, QOp.push 7, QOp.pop, QOp.pop]).q) :=
  (C5_spsc_queue_spec Nat 1 0).2.2
    [QOp.push 5, QOp.push 6, QOp.push 7, QOp.pop, QOp.pop]

/- ===================== Log frames (src/include/log.hpp) ===================== -/

/-- Byte size of struct LogHead: uint32 length, uint32 reclaimed, uint64
gc_tsc, uint64 start_us, and the validation_ticket pointer. -/
def LOG_HEAD_SIZE : Nat := 32

/-- Byte size of struct LogTail: uint32 length, uint32 magic. -/
def LOG_TAIL_SIZE : Nat := 8

/-- Sentinel constant LogTail::MAGIC = 0x0000DEAD. -/
def LOG_TAIL_MAGIC : Nat := 0x0000DEAD

/-- Alignment of append_log: AlignedSize = (Size + 7) AND NOT 7, which on
naturals is rounding up to the next multiple of 8. -/
def align8 (n : Nat) : Nat := (n + 7) / 8 * 8

/-- Byte memory of one frame, addressed relative to the frame head. -/
abbrev Mem : Type := Nat → Nat

def writeByte (m : Mem) (off b : Nat) : Mem :=
  fun a => if a = off then b else m a

def writeBytes (m : Mem) (off : Nat) : List Nat → Mem
  | [] => m
  | b :: rest => writeBytes (writeByte m off b) (off + 1) rest

def readBytes (m : Mem) (off n : Nat) : List Nat :=
  (List.range n).map (fun i => m (off + i))

/-- Producer-side view of the current log (struct Log): the frame bytes and
the write cursor, as offsets from the frame head. -/
structure Log where
  mem : Mem
  cursor : Nat

/-- Function new_log of log.hpp lines 227-241: the head is written and the
cursor starts one LogHead past the frame start. -/
def new_log (m0 : Mem) : Log := ⟨m0, LOG_HEAD_SIZE⟩

/-- Function append_log of log.hpp lines 243-259: memcpy Size bytes at the
cursor, then advance the cursor by Size rounded up to 8. -/
def append_log (st : Log) (data : List Nat) : Log :=
  ⟨writeBytes st.mem st.cursor data, st.cursor + align8 data.length⟩

/-- Little-endian 32-bit store of a uint32 field (x86 layout). -/
def le32 (n : Nat) : List Nat :=
  [n % 256, n / 256 % 256, n / 256 ^ 2 % 256, n / 256 ^ 3 % 256]

/-- Little-endian 32-bit load. -/
def decodeLe32 (b : List Nat) : Nat :=
  b.getD 0 0 + 256 * b.getD 1 0 + 256 ^ 2 * b.getD 2 0 + 256 ^ 3 * b.getD 3 0

/-- A committed frame: its bytes plus the length field of the LogHead struct
(written through the head pointer, not through the byte cursor). -/
structure Frame where
  mem : Mem
  headLength : Nat

/-- Function commit_log of log.hpp lines 288-304: place the LogTail at the
cursor with length = ptr_distance(head, cursor + sizeof(LogTail)) and
magic = LogTail::MAGIC, and record the same length in head->length; both
length fields are uint32. The slab bookkeeping (allocator.commit) and the
enqueue are modelled in the slab section below. -/
def commit_log (st : Log) : Frame :=
  ⟨writeBytes st.mem st.cursor
      (le32 ((st.cursor + LOG_TAIL_SIZE) % 2 ^ 32) ++ le32 LOG_TAIL_MAGIC),
    (st.cursor + LOG_TAIL_SIZE) % 2 ^ 32⟩

/-- Length field of the LogTail of a committed frame, read back from the
frame bytes. -/
def frameTailLength (fr : Frame) : Nat :=
  decodeLe32 (readBytes fr.mem (fr.headLength - LOG_TAIL_SIZE) 4)

/-- Magic field of the LogTail of a committed frame. -/
def frameTailMagic (fr : Frame) : Nat :=
  decodeLe32 (readBytes fr.mem (fr.headLength - LOG_TAIL_SIZE + 4) 4)

/-- Validator-side reader (class LogReader): frame bytes plus read cursor. -/
structure LogReader where
  mem : Mem
  cursor : Nat

/-- Method open of LogReader (log.hpp line 312): cursor = log + 1, one
LogHead past the frame start. -/
def LogReader.openFrame (fr : Frame) : LogReader := ⟨fr.mem, LOG_HEAD_SIZE⟩

/-- Method fetch_log of LogReader (log.hpp lines 317-322): memcpy Size bytes
from the cursor, advance by Size rounded up to 8. -/
def fetch_log (r : LogReader) (size : Nat) : List Nat × LogReader :=
  (readBytes r.mem r.cursor size, ⟨r.mem, r.cursor + align8 size⟩)

/-- Method close of LogReader (log.hpp lines 330-344): fetch the LogTail,
abort unless magic = LogTail::MAGIC and length = ptr_distance(log, cursor);
true models passing both checks, false models std::abort. -/
def LogReader.close (r : LogReader) : Bool :=
  let tailLength := decodeLe32 (readBytes r.mem r.cursor 4)
  let tailMagic := decodeLe32 (readBytes r.mem (r.cursor + 4) 4)
  let cursor2 := r.cursor + align8 LOG_TAIL_SIZE
  (tailMagic == LOG_TAIL_MAGIC) && (tailLength == cursor2)

/-- Fetch a sequence of records of the given sizes, in order. -/
def fetchAll (r : LogReader) : List Nat → List (List Nat) × LogReader
  | [] => ([], r)
  | n :: ns =>
      let p := fetch_log r n
      let q := fetchAll p.2 ns
      (p.1 :: q.1, q.2)

/-- Total footprint of the appended records. -/
def sumAligned (chunks : List (List Nat)) : Nat :=
  (chunks.map (fun c => align8 c.length)).sum

/-- Frame committed after appending the given records to a fresh log. -/
def committedFrame (m0 : Mem) (chunks : List (List Nat)) : Frame :=
  commit_log (chunks.foldl append_log (new_log m0))

lemma align8_ge (n : Nat) : n ≤ align8 n := by
  unfold align8; omega

lemma writeBytes_out (data : List Nat) :
    ∀ (m : Mem) (off a : Nat), a < off → writeBytes m off data a = m a := by
  induction data with
  | nil => intro m off a _; rfl
  | cons b rest ih =>
      intro m off a h
      show writeBytes (writeByte m off b) (off + 1) rest a = m a
      rw [ih _ _ _ (by omega)]
      unfold writeByte
      rw [if_neg (by omega)]

lemma readBytes_congr (m1 m2 : Mem) (off n : Nat)
    (h : ∀ a, off ≤ a → a < off + n → m1 a = m2 a) :
    readBytes m1 off n = readBytes m2 off n := by
  unfold readBytes
  apply List.map_congr_left
  intro i hi
  rw [List.mem_range] at hi
  exact h (off + i) (by omega) (by omega)

lemma readBytes_succ (m : Mem) (off n : Nat) :
    readBytes m off (n + 1) = m off :: readBytes m (off + 1) n := by
  unfold readBytes
  rw [List.range_succ_eq_map, List.map_cons, List.map_map]
  congr 1
  apply List.map_congr_left
  intro i _
  simp only [Function.comp_apply]
  congr 1
  omega

lemma readBytes_writeBytes_self (data : List Nat) :
    ∀ (m : Mem) (off : Nat),
      readBytes (writeBytes m off data) off data.length = data := by
  induction data with
  | nil => intro m off; rfl
  | cons b rest ih =>
      intro m off
      show readBytes (writeBytes (writeByte m off b) (off + 1) rest) off
        (rest.length + 1) = b :: rest
      rw [readBytes_succ, ih]
      congr 1
      rw [writeBytes_out rest _ _ _ (by omega)]
      unfold writeByte
      rw [if_pos rfl]

lemma writeBytes_append (d1 d2 : List Nat) :
    ∀ (m : Mem) (off : Nat),
      writeBytes m off (d1 ++ d2)
        = writeBytes (writeBytes m off d1) (off + d1.length) d2 := by
  induction d1 with
  | nil => intro m off; simp [writeBytes]
  | cons b rest ih =>
      intro m off
      have ho : off + 1 + rest.length = off + (rest.length + 1) := by omega
      show writeBytes (writeByte m off b) (off + 1) (rest ++ d2)
        = writeBytes (writeBytes (writeByte m off b) (off + 1) rest)
            (off + (rest.length + 1)) d2
      rw [ih, ho]

lemma decodeLe32_le32 (n : Nat) : decodeLe32 (le32 n) = n % 2 ^ 32 := by
  show n % 256 + 256 * (n / 256 % 256) + 256 ^ 2 * (n / 256 ^ 2 % 256)
      + 256 ^ 3 * (n / 256 ^ 3 % 256) = n % 2 ^ 32
  norm_num
  omega

lemma le32_length (n : Nat) : (le32 n).length = 4 := rfl

lemma foldl_append_cursor (chunks : List (List Nat)) :
    ∀ st : Log,
      (chunks.foldl append_log st).cursor = st.cursor + sumAligned chunks := by
  induction chunks with
  | nil => intro st; simp [sumAligned]
  | cons d rest ih =>
      intro st
      show (rest.foldl append_log (append_log st d)).cursor = _
      rw [ih]
      show st.cursor + align8 d.length + sumAligned rest
        = st.cursor + sumAligned (d :: rest)
      simp [sumAligned]
      omega

lemma foldl_append_mem_lt (chunks : List (List Nat)) :
    ∀ (st : Log) (a : Nat), a < st.cursor →
      (chunks.foldl append_log st).mem a = st.mem a := by
  induction chunks with
  | nil => intro st a _; rfl
  | cons d rest ih =>
      intro st a h
      show (rest.foldl append_log (append_log st d)).mem a = st.mem a
      have hmono : a < (append_log st d).cursor := by
        show a < st.cursor + align8 d.length
        omega
      rw [ih _ a hmono]
      show writeBytes st.mem st.cursor d a = st.mem a
      exact writeBytes_out d _ _ _ h

lemma fetchAll_spec (chunks : List (List Nat)) :
    ∀ (st : Log) (m2 : Mem),
      (∀ a, a < (chunks.foldl append_log st).cursor →
          m2 a = (chunks.foldl append_log st).mem a) →
      fetchAll ⟨m2, st.cursor⟩ (chunks.map List.length)
        = (chunks, ⟨m2, (chunks.foldl append_log st).cursor⟩) := by
  induction chunks with
  | nil => intro st m2 _; rfl
  | cons d rest ih =>
      intro st m2 hagree
      have hsum := align8_ge d.length
      have hmono : (append_log st d).cursor
          ≤ (rest.foldl append_log (append_log st d)).cursor := by
        rw [foldl_append_cursor]
        omega
      have hread : readBytes m2 st.cursor d.length = d := by
        have h1 : ∀ a, st.cursor ≤ a → a < st.cursor + d.length →
            m2 a = (append_log st d).mem a := by
          intro a ha1 ha2
          have haf : a < (append_log st d).cursor := by
            show a < st.cursor + align8 d.length
            omega
          rw [hagree a (lt_of_lt_of_le haf hmono)]
          exact foldl_append_mem_lt rest (append_log st d) a haf
        calc readBytes m2 st.cursor d.length
            = readBytes (append_log st d).mem st.cursor d.length :=
              readBytes_congr _ _ _ _ h1
          _ = d := readBytes_writeBytes_self d st.mem st.cursor
      have hih := ih (append_log st d) m2 (fun a ha => hagree a ha)
      show (readBytes m2 st.cursor d.length ::
              (fetchAll ⟨m2, st.cursor + align8 d.length⟩
                (rest.map List.length)).1,
            (fetchAll ⟨m2, st.cursor + align8 d.length⟩
              (rest.map List.length)).2)
        = (d :: rest, ⟨m2, (rest.foldl append_log (append_log st d)).cursor⟩)
      rw [hread]
      have hc : (⟨m2, st.cursor + align8 d.length⟩ : LogReader)
          = ⟨m2, (append_log st d).cursor⟩ := rfl
      rw [hc, hih]

/-- C2: appending records of sizes N1..Nk between new_log and commit_log
stores each record at the cursor and advances the cursor by its size rounded
up to 8; the committed frame records head.length = tail.length = the byte
distance from the head through the end of the tail, with
tail.magic = 0x0000DEAD, and a LogReader that opens the frame and fetches
records of the same sizes in order recovers exactly the appended bytes,
after which close() passes both checks (no abort). -/
theorem C2_log_frame_roundtrip (m0 : Mem) (chunks : List (List Nat))
    (hfit : LOG_HEAD_SIZE + sumAligned chunks + LOG_TAIL_SIZE < 2 ^ 32) :
    (∀ (st : Log) (data : List Nat),
        (append_log st data).cursor = st.cursor + align8 data.length ∧
        readBytes (append_log st data).mem st.cursor data.length = data) ∧
    (committedFrame m0 chunks).headLength
        = LOG_HEAD_SIZE + sumAligned chunks + LOG_TAIL_SIZE ∧
    frameTailLength (committedFrame m0 chunks)
        = (committedFrame m0 chunks).headLength ∧
    frameTailMagic (committedFrame m0 chunks) = LOG_TAIL_MAGIC ∧
    (fetchAll (LogReader.openFrame (committedFrame m0 chunks))
        (chunks.map List.length)).1 = chunks ∧
    LogReader.close
        (fetchAll (LogReader.openFrame (committedFrame m0 chunks))
          (chunks.map List.length)).2 = true := by
  have happend : ∀ (st : Log) (data : List Nat),
      (append_log st data).cursor = st.cursor + align8 data.length ∧
      readBytes (append_log st data).mem st.cursor data.length = data :=
    fun st data => ⟨rfl, readBytes_writeBytes_self data st.mem st.cursor⟩
  set stf := chunks.foldl append_log (new_log m0) with hstf
  have hcur : stf.cursor = LOG_HEAD_SIZE + sumAligned chunks := by
    rw [hstf, foldl_append_cursor]
    rfl
  have htot : stf.cursor + LOG_TAIL_SIZE < 2 ^ 32 := by omega
  have hmod : (stf.cursor + LOG_TAIL_SIZE) % 2 ^ 32
      = stf.cursor + LOG_TAIL_SIZE := Nat.mod_eq_of_lt htot
  have hfrm : committedFrame m0 chunks
      = ⟨writeBytes stf.mem stf.cursor
            (le32 ((stf.cursor + LOG_TAIL_SIZE) % 2 ^ 32)
              ++ le32 LOG_TAIL_MAGIC),
          (stf.cursor + LOG_TAIL_SIZE) % 2 ^ 32⟩ := rfl
  have hsplit : writeBytes stf.mem stf.cursor
        (le32 ((stf.cursor + LOG_TAIL_SIZE) % 2 ^ 32) ++ le32 LOG_TAIL_MAGIC)
      = writeBytes
          (writeBytes stf.mem stf.cursor
            (le32 ((stf.cursor + LOG_TAIL_SIZE) % 2 ^ 32)))
          (stf.cursor + 4) (le32 LOG_TAIL_MAGIC) := by
    rw [writeBytes_append]
    rfl
  have hhead : (committedFrame m0 chunks).headLength
      = LOG_HEAD_SIZE + sumAligned chunks + LOG_TAIL_SIZE := by
    rw [hfrm]
    show (stf.cursor + LOG_TAIL_SIZE) % 2 ^ 32 = _
    omega
  have htailoff : (committedFrame m0 chunks).headLength - LOG_TAIL_SIZE
      = stf.cursor := by
    rw [hhead]
    show LOG_HEAD_SIZE + sumAligned chunks + LOG_TAIL_SIZE - LOG_TAIL_SIZE
      = stf.cursor
    omega
  have hreadlen : readBytes (committedFrame m0 chunks).mem stf.cursor 4
      = le32 ((stf.cursor + LOG_TAIL_SIZE) % 2 ^ 32) := by
    rw [hfrm]
    show readBytes (writeBytes stf.mem stf.cursor _) stf.cursor 4 = _
    rw [hsplit]
    rw [readBytes_congr _
        (writeBytes stf.mem stf.cursor
          (le32 ((stf.cursor + LOG_TAIL_SIZE) % 2 ^ 32)))
        stf.cursor 4
        (fun a _ ha2 => writeBytes_out _ _ _ _ (by omega))]
    have := readBytes_writeBytes_self
      (le32 ((stf.cursor + LOG_TAIL_SIZE) % 2 ^ 32)) stf.mem stf.cursor
    rwa [le32_length] at this
  have hreadmag : readBytes (committedFrame m0 chunks).mem (stf.cursor + 4) 4
      = le32 LOG_TAIL_MAGIC := by
    rw [hfrm]
    show readBytes (writeBytes stf.mem stf.cursor _) (stf.cursor + 4) 4 = _
    rw [hsplit]
    have := readBytes_writeBytes_self (le32 LOG_TAIL_MAGIC)
      (writeBytes stf.mem stf.cursor
        (le32 ((stf.cursor + LOG_TAIL_SIZE) % 2 ^ 32)))
      (stf.cursor + 4)
    rwa [le32_length] at this
  have hfetch : fetchAll (LogReader.openFrame (committedFrame m0 chunks))
        (chunks.map List.length)
      = (chunks, ⟨(committedFrame m0 chunks).mem, stf.cursor⟩) := by
    have hagree : ∀ a, a < stf.cursor →
        (committedFrame m0 chunks).mem a = stf.mem a := by
      intro a ha
      rw [hfrm]
      exact writeBytes_out _ _ _ _ ha
    have := fetchAll_spec chunks (new_log m0)
      (committedFrame m0 chunks).mem (fun a ha => hagree a ha)
    exact this
  refine ⟨happend, hhead, ?_, ?_, ?_, ?_⟩
  · unfold frameTailLength
    rw [htailoff, hreadlen, decodeLe32_le32, hhead]
    omega
  · unfold frameTailMagic
    rw [htailoff, hreadmag, decodeLe32_le32]
    decide
  · rw [hfetch]
  · rw [hfetch]
    unfold LogReader.close
    simp only
    rw [hreadlen, hreadmag, decodeLe32_le32, decodeLe32_le32]
    have h1 : LOG_TAIL_MAGIC % 2 ^ 32 = LOG_TAIL_MAGIC := by decide
    have h2 : align8 LOG_TAIL_SIZE = LOG_TAIL_SIZE := by decide
    rw [h1, h2, hmod]
    simp
    omega

/-- Concrete record sizes 3 and 9 exercising the round-up-to-8 padding. -/
def chunksW : List (List Nat) := [[1, 2, 3], [4, 5, 6, 7, 8, 9, 10, 11, 12]]

/-- Concrete zeroed frame memory. -/
def memW : Mem := fun _ => 0

/-- C2 witness: the two concrete records fit, the committed frame length is
32 + 8 + 16 + 8 = 64 in head and tail, the reader recovers both records and
close() passes. -/
theorem C2_witness :
    (LOG_HEAD_SIZE + sumAligned chunksW + LOG_TAIL_SIZE < 2 ^ 32) ∧
    ((committedFrame memW chunksW).headLength
        = LOG_HEAD_SIZE + sumAligned chunksW + LOG_TAIL_SIZE ∧
      frameTailLength (committedFrame memW chunksW)
        = (committedFrame memW chunksW).headLength ∧
      frameTailMagic (committedFrame memW chunksW) = LOG_TAIL_MAGIC ∧
      (fetchAll (LogReader.openFrame (committedFrame memW chunksW))
          (chunksW.map List.length)).1 = chunksW ∧
      LogReader.close
          (fetchAll (LogReader.openFrame (committedFrame memW chunksW))
            (chunksW.map List.length)).2 = true) := by
  have h := C2_log_frame_roundtrip memW chunksW (by decide)
  exact ⟨by decide, h.2.1, h.2.2.1, h.2.2.2.1, h.2.2.2.2.1, h.2.2.2.2.2⟩

/- ===================== Slab lifecycle (src/include/log.hpp) ===================== -/

/-- Cache line size: the layout comment of log.hpp pads to 64 bytes and
sizeof(LogBufferHead) is asserted to be CACHELINE_SIZE * 2 = 128. -/
def CACHELINE_SIZE : Nat := 64

/-- Helper align_size_to_cacheline. Modelled from the spec: utils.hpp is not
under src; the layout comment of log.hpp pads every frame to 64 bytes, so
the helper rounds up to the next multiple of CACHELINE_SIZE. -/
def alignCacheline (n : Nat) : Nat :=
  (n + CACHELINE_SIZE - 1) / CACHELINE_SIZE * CACHELINE_SIZE

/-- Constant MIN_LOG_BUFFER_SIZE = 1 shl 15 of log.hpp. -/
def MIN_LOG_BUFFER_SIZE : Nat := 2 ^ 15

/-- Constant MAX_LOG_BUFFER_SIZE = MIN_LOG_BUFFER_SIZE * 16. -/
def MAX_LOG_BUFFER_SIZE : Nat := MIN_LOG_BUFFER_SIZE * 16

/-- Byte size of struct LogBufferHead (asserted CACHELINE_SIZE * 2). -/
def LOG_BUFFER_HEAD_SIZE : Nat := CACHELINE_SIZE * 2

/-- One slab (log buffer) as seen through its LogBufferHead plus the
producer cursor: nr_logs, in_use and nr_reclaimed are the header words;
nextOff is ptr_distance(buffer, next frame); released records a push onto
GlobalLogBufferAllocator::free_buffers. -/
structure Slab where
  nr_logs : Nat
  in_use : Nat
  nr_reclaimed : Nat
  nextOff : Nat
  released : Bool
  deriving DecidableEq, Repr

/-- Freshly acquired slab (ThreadLogAllocator::allocate, log.hpp lines
153-169): nr_logs = 0, in_use = 1, nr_reclaimed = 0, first frame right after
the LogBufferHead. -/
def slabInit : Slab := ⟨0, 1, 0, LOG_BUFFER_HEAD_SIZE, false⟩

/-- ThreadLogAllocator::commit of log.hpp lines 171-196: bump nr_logs,
advance the frame cursor by the cacheline-aligned log length; when the next
frame start leaves less than MIN_LOG_BUFFER_SIZE of room the cursor is
dropped and in_use is cleared, otherwise the cursor is pushed for reuse and
in_use is untouched. -/
def slab_commit (s : Slab) (logLength : Nat) : Slab :=
  { s with
      nr_logs := s.nr_logs + 1,
      nextOff := s.nextOff + alignCacheline logLength,
      in_use :=
        if s.nextOff + alignCacheline logLength
            ≤ MAX_LOG_BUFFER_SIZE - MIN_LOG_BUFFER_SIZE
        then s.in_use else 0 }

/-- Function reclaim_log of log.hpp lines 129-149, restricted to the slab
header effects: nr_reclaimed.fetch_add(1); then only if in_use reads 0 and
the incremented nr_reclaimed equals nr_logs is the slab pushed onto the
process-wide free list (released). -/
def slab_reclaim (s : Slab) : Slab :=
  if s.in_use = 0 ∧ s.nr_reclaimed + 1 = s.nr_logs
  then { s with nr_reclaimed := s.nr_reclaimed + 1, released := true }
  else { s with nr_reclaimed := s.nr_reclaimed + 1 }

/-- Events touching one slab: a commit by the producing thread (with the
frame length) or a reclaim by a validator. -/
inductive SlabEvent where
  | commit (logLength : Nat)
  | reclaim
  deriving DecidableEq, Repr

def slab_step (s : Slab) : SlabEvent → Slab
  | SlabEvent.commit n => slab_commit s n
  | SlabEvent.reclaim => slab_reclaim s

/-- Number of 1-to-0 transitions of in_use along a trace. -/
def flipCount : Slab → List SlabEvent → Nat
  | _, [] => 0
  | s, e :: rest =>
      (if s.in_use = 1 ∧ (slab_step s e).in_use = 0 then 1 else 0)
        + flipCount (slab_step s e) rest

lemma in_use_zero_step (s : Slab) (e : SlabEvent) (h : s.in_use = 0) :
    (slab_step s e).in_use = 0 := by
  cases e with
  | commit n =>
      show (if _ then s.in_use else 0) = 0
      by_cases hc : s.nextOff + alignCacheline n
          ≤ MAX_LOG_BUFFER_SIZE - MIN_LOG_BUFFER_SIZE
      · rw [if_pos hc]; exact h
      · rw [if_neg hc]
  | reclaim =>
      unfold slab_step slab_reclaim
      by_cases hc : s.in_use = 0 ∧ s.nr_reclaimed + 1 = s.nr_logs
      · rw [if_pos hc]; exact h
      · rw [if_neg hc]; exact h

lemma flipCount_zero (evs : List SlabEvent) :
    ∀ s : Slab, s.in_use = 0 → flipCount s evs = 0 := by
  induction evs with
  | nil => intro s _; rfl
  | cons e rest ih =>
      intro s h
      show (if s.in_use = 1 ∧ (slab_step s e).in_use = 0 then 1 else 0)
          + flipCount (slab_step s e) rest = 0
      rw [if_neg (by rw [h]; simp), ih _ (in_use_zero_step s e h)]

lemma flipCount_le_one (evs : List SlabEvent) :
    ∀ s : Slab, flipCount s evs ≤ 1 := by
  induction evs with
  | nil => intro s; exact Nat.zero_le 1
  | cons e rest ih =>
      intro s
      show (if s.in_use = 1 ∧ (slab_step s e).in_use = 0 then 1 else 0)
          + flipCount (slab_step s e) rest ≤ 1
      by_cases h : s.in_use = 1 ∧ (slab_step s e).in_use = 0
      · rw [if_pos h, flipCount_zero rest _ h.2]
      · rw [if_neg h]
        simpa using ih (slab_step s e)

/-- C4: a slab is released to the process-wide free list only by a reclaim
that observes in_use = 0 and nr_reclaimed = nr_logs; while the producer
still owns the slab (in_use = 1) no reclaim releases it; reclaims never
modify in_use, and only a commit whose next frame start leaves less than
MIN_LOG_BUFFER_SIZE of room clears it, so along any trace from a fresh slab
in_use falls from 1 to 0 at most once. -/
theorem C4_slab_release_invariant :
    (∀ (s : Slab) (e : SlabEvent),
        (slab_step s e).released = true →
        s.released = true ∨
          (e = SlabEvent.reclaim ∧ s.in_use = 0 ∧
            (slab_step s e).in_use = 0 ∧
            (slab_step s e).nr_reclaimed = (slab_step s e).nr_logs)) ∧
    (∀ s : Slab, s.in_use = 1 → (slab_reclaim s).released = s.released) ∧
    (∀ s : Slab, (slab_reclaim s).in_use = s.in_use) ∧
    (∀ (s : Slab) (n : Nat),
        (slab_commit s n).in_use
          = if s.nextOff + alignCacheline n
                ≤ MAX_LOG_BUFFER_SIZE - MIN_LOG_BUFFER_SIZE
            then s.in_use else 0) ∧
    (∀ evs : List SlabEvent, flipCount slabInit evs ≤ 1) := by
  refine ⟨?_, ?_, ?_, fun s n => rfl, fun evs => flipCount_le_one evs slabInit⟩
  · intro s e h
    cases e with
    | commit n => exact Or.inl h
    | reclaim =>
        unfold slab_step slab_reclaim at h ⊢
        by_cases hc : s.in_use = 0 ∧ s.nr_reclaimed + 1 = s.nr_logs
        · refine Or.inr ⟨rfl, hc.1, ?_, ?_⟩
          · rw [if_pos hc]; exact hc.1
          · rw [if_pos hc]
            show s.nr_reclaimed + 1 = s.nr_logs
            exact hc.2
        · rw [if_neg hc] at h
          exact Or.inl h
  · intro s h
    unfold slab_reclaim
    rw [if_neg (by rw [h]; simp)]
  · intro s
    unfold slab_reclaim
    by_cases hc : s.in_use = 0 ∧ s.nr_reclaimed + 1 = s.nr_logs
    · rw [if_pos hc]
    · rw [if_neg hc]

/-- C4 witness: a commit that exhausts the slab clears in_use; the reclaim
that balances nr_logs then releases, matching the release conditions. -/
theorem C4_witness :
    ((slab_step (slab_step slabInit (SlabEvent.commit (2 ^ 19)))
        SlabEvent.reclaim).released = true) ∧
    ((slab_step slabInit (SlabEvent.commit (2 ^ 19))).released = true ∨
      (SlabEvent.reclaim = SlabEvent.reclaim ∧
        (slab_step slabInit (SlabEvent.commit (2 ^ 19))).in_use = 0 ∧
        (slab_step (slab_step slabInit (SlabEvent.commit (2 ^ 19)))
          SlabEvent.reclaim).in_use = 0 ∧
        (slab_step (slab_step slabInit (SlabEvent.commit (2 ^ 19)))
            SlabEvent.reclaim).nr_reclaimed
          = (slab_step (slab_step slabInit (SlabEvent.commit (2 ^ 19)))
              SlabEvent.reclaim).nr_logs)) :=
  ⟨by decide,
    C4_slab_release_invariant.1
      (slab_step slabInit (SlabEvent.commit (2 ^ 19))) SlabEvent.reclaim
      (by decide)⟩

/- ===================== Redundancy primitive (src/include/scee.hpp, src/scee.cpp) ===================== -/

/-- Struct Closure of scee.hpp lines 18-41: the recorded function pointer
and the argument tuple embedded by value. -/
structure Closure (ArgT RetT : Type) where
  fn : ArgT → RetT
  args : ArgT

/-- Method run: std::apply(fn, args). -/
def Closure.run {ArgT RetT} (c : Closure ArgT RetT) : RetT := c.fn c.args

/-- Method run_with_fn: std::apply(other fn, args). -/
def Closure.run_with_fn {ArgT RetT} (c : Closure ArgT RetT)
    (f : ArgT → RetT) : RetT := f c.args

/-- Structured view of a frame produced by run2: the appended Closure
record, the appended return value, and the LogTail written by commit_log.
Equality on RetT models the byte comparison of cmp_log (Ret is trivially
copyable with unique object representation). tailLengthOk stands for
tail.length = ptr_distance(log, cursor) in close(). -/
structure SFrame (ArgT RetT : Type) where
  closure : Closure ArgT RetT
  loggedRet : RetT
  tailMagic : Nat
  tailLengthOk : Bool

/-- Function run2 of scee.hpp lines 63-95 (non-void, default asynchronous
build): new_log, append a Closure holding the validator function and the
arguments, re-enter through the application function on the same argument
tuple, append its return value, commit (writing the tail sentinel), and
return the captured value to the caller. -/
def run2 {ArgT RetT : Type} (app_fn val_fn : ArgT → RetT) (args : ArgT) :
    RetT × SFrame ArgT RetT :=
  let func : Closure ArgT RetT := ⟨val_fn, args⟩
  let ret := func.run_with_fn app_fn
  (ret, ⟨func, ret, LOG_TAIL_MAGIC, true⟩)

/-- Outcome of processing one frame on the validator thread. -/
inductive VOutcome where
  | reclaimed
  | abortCompare
  | abortMagic
  | abortLength
  deriving DecidableEq, Repr

/-- Function validate_one of src/scee.cpp lines 138-195 in the default
configuration (sampling_rate = 100, max_validation_core = 0, validation
enabled): open the frame, peek the Validable, Closure::validate re-runs the
recorded function on the recorded arguments and cmp_log compares the result
byte-for-byte with the logged return (validator_assert aborts on mismatch,
per the spec: unequal comparison aborts the process); then close() checks
the tail magic and the tail length (abort on mismatch) and reclaims. -/
def validate_one {ArgT RetT : Type} [DecidableEq RetT]
    (fr : SFrame ArgT RetT) : VOutcome :=
  if fr.closure.run = fr.loggedRet then
    if fr.tailMagic = LOG_TAIL_MAGIC then
      if fr.tailLengthOk then VOutcome.reclaimed else VOutcome.abortLength
    else VOutcome.abortMagic
  else VOutcome.abortCompare

/-- Atomic steps of validate_one, in program order. -/
inductive VStep where
  | openFrame
  | peekClosure
  | skipClosure
  | runValidatorFn
  | compareRet (ok : Bool)
  | checkTailMagic (ok : Bool)
  | checkTailLength (ok : Bool)
  | reclaim
  deriving DecidableEq, Repr

/-- Step trace of validate_one on one frame, truncated at the first failing
check (validator_assert and the close() checks call std::abort). The order
is that of src/scee.cpp lines 153-159: open, peek, Closure::validate (skip,
re-run, compare), then LogReader::close (magic check, length check,
reclaim_log). -/
def validate_one_trace {ArgT RetT : Type} [DecidableEq RetT]
    (fr : SFrame ArgT RetT) : List VStep :=
  [VStep.openFrame, VStep.peekClosure, VStep.skipClosure,
    VStep.runValidatorFn] ++
  (if fr.closure.run = fr.loggedRet then
    VStep.compareRet true ::
      (if fr.tailMagic = LOG_TAIL_MAGIC then
        VStep.checkTailMagic true ::
          (if fr.tailLengthOk then
            [VStep.checkTailLength true, VStep.reclaim]
          else [VStep.checkTailLength false])
      else [VStep.checkTailMagic false])
  else [VStep.compareRet false])

/-- C1: run2 invokes app_fn on the argument tuple and returns its value; the
logged closure carries val_fn with the same argument bit-pattern and the
logged return is app_fn's; validation re-invokes val_fn on exactly the
logged arguments and compares against the logged return, reclaiming on
equality and aborting the process on inequality. -/
theorem C1_run2_contract {ArgT RetT : Type} [DecidableEq RetT]
    (app_fn val_fn : ArgT → RetT) (args : ArgT) :
    (run2 app_fn val_fn args).1 = app_fn args ∧
    (run2 app_fn val_fn args).2.closure.fn = val_fn ∧
    (run2 app_fn val_fn args).2.closure.args = args ∧
    (run2 app_fn val_fn args).2.loggedRet = app_fn args ∧
    (run2 app_fn val_fn args).2.closure.run = val_fn args ∧
    (validate_one (run2 app_fn val_fn args).2 = VOutcome.reclaimed ↔
      val_fn args = app_fn args) ∧
    (validate_one (run2 app_fn val_fn args).2 = VOutcome.abortCompare ↔
      val_fn args ≠ app_fn args) := by
  refine ⟨rfl, rfl, rfl, rfl, rfl, ?_, ?_⟩
  · by_cases h : val_fn args = app_fn args <;>
      simp [validate_one, run2, Closure.run, Closure.run_with_fn, h]
  · by_cases h : val_fn args = app_fn args <;>
      simp [validate_one, run2, Closure.run, Closure.run_with_fn, h]

/-- C1 witness: with app and validator agreeing at the input the call
returns the application value and the frame validates to reclamation; the
recorded closure holds the validator function and the argument. -/
theorem C1_witness :
    (run2 (fun n => n + 1) (fun n => n + 1) 5).1 = (fun n : Nat => n + 1) 5 ∧
    (validate_one (run2 (fun n => n + 1) (fun n => n + 1) 5).2
        = VOutcome.reclaimed ↔
      (fun n : Nat => n + 1) 5 = (fun n : Nat => n + 1) 5) :=
  ⟨(C1_run2_contract (fun n => n + 1) (fun n => n + 1) 5).1,
    (C1_run2_contract (fun n => n + 1) (fun n => n + 1) 5).2.2.2.2.2.1⟩

/-- Concrete frame whose logged return matches the re-execution but whose
tail magic was corrupted after commit. -/
def frMagicBad : SFrame Nat Nat := ⟨⟨fun n => n + 1, 5⟩, 6, 0, true⟩

/-- C3 (counterexample): on a frame with a corrupted tail magic the
validator first reads the closure record, re-runs the recorded function and
compares the logged return, and only then fails the tail magic check: the
re-execution of frame contents (index 3 of the trace) strictly precedes the
magic check (index 5), refuting that the checks happen before any action on
the frame contents. -/
theorem C3_counterexample :
    validate_one_trace frMagicBad
      = [VStep.openFrame, VStep.peekClosure, VStep.skipClosure,
         VStep.runValidatorFn, VStep.compareRet true,
         VStep.checkTailMagic false] ∧
    List.indexOf VStep.runValidatorFn (validate_one_trace frMagicBad)
      < List.indexOf (VStep.checkTailMagic false)
          (validate_one_trace frMagicBad) := by
  constructor
  · rfl
  · decide

/-- C3 (amended): the tail-magic and tail-length checks are performed on the
validator side and a failure of either aborts the process; they run after
the closure record has been re-executed and its return compared, and before
the frame is reclaimed: reclamation appears in a trace only when the
comparison and both checks all passed, as the final step. -/
theorem C3_tail_checks_amended {ArgT RetT : Type} [DecidableEq RetT]
    (fr : SFrame ArgT RetT) :
    (fr.closure.run = fr.loggedRet → fr.tailMagic ≠ LOG_TAIL_MAGIC →
        validate_one fr = VOutcome.abortMagic) ∧
    (fr.closure.run = fr.loggedRet → fr.tailMagic = LOG_TAIL_MAGIC →
        fr.tailLengthOk = false → validate_one fr = VOutcome.abortLength) ∧
    (VStep.reclaim ∈ validate_one_trace fr →
        validate_one_trace fr
          = [VStep.openFrame, VStep.peekClosure, VStep.skipClosure,
             VStep.runValidatorFn, VStep.compareRet true,
             VStep.checkTailMagic true, VStep.checkTailLength true,
             VStep.reclaim]) ∧
    List.take 4 (validate_one_trace fr)
      = [VStep.openFrame, VStep.peekClosure, VStep.skipClosure,
         VStep.runValidatorFn] := by
  refine ⟨?_, ?_, ?_, ?_⟩
  · intro hcmp hmag
    unfold validate_one
    rw [if_pos hcmp, if_neg hmag]
  · intro hcmp hmag hlen
    unfold validate_one
    rw [if_pos hcmp, if_pos hmag, if_neg (by rw [hlen]; simp)]
  · intro hmem
    unfold validate_one_trace at hmem ⊢
    by_cases hcmp : fr.closure.run = fr.loggedRet
    · rw [if_pos hcmp] at hmem ⊢
      by_cases hmag : fr.tailMagic = LOG_TAIL_MAGIC
      · rw [if_pos hmag] at hmem ⊢
        by_cases hlen : fr.tailLengthOk
        · rw [if_pos hlen] at hmem ⊢
          rfl
        · rw [if_neg hlen] at hmem
          simp at hmem
      · rw [if_neg hmag] at hmem
        simp at hmem
    · rw [if_neg hcmp] at hmem
      simp at hmem
  · unfold validate_one_trace
    rfl

/-- C3 witness: a frame whose comparison passes but whose magic is corrupt
aborts at the magic check, and a reclaimed trace has the checks right before
the final reclaim. -/
theorem C3_witness :
    ((frMagicBad.closure.run = frMagicBad.loggedRet) ∧
      (frMagicBad.tailMagic ≠ LOG_TAIL_MAGIC) ∧
      validate_one frMagicBad = VOutcome.abortMagic) ∧
    (VStep.reclaim ∈ validate_one_trace (⟨⟨fun n => n + 1, 5⟩, 6,
        LOG_TAIL_MAGIC, true⟩ : SFrame Nat Nat) ∧
      validate_one_trace (⟨⟨fun n => n + 1, 5⟩, 6,
          LOG_TAIL_MAGIC, true⟩ : SFrame Nat Nat)
        = [VStep.openFrame, VStep.peekClosure, VStep.skipClosure,
           VStep.runValidatorFn, VStep.compareRet true,
           VStep.checkTailMagic true, VStep.checkTailLength true,
           VStep.reclaim]) :=
  ⟨⟨by decide, by decide,
      (C3_tail_checks_amended frMagicBad).1 (by decide) (by decide)⟩,
    ⟨by decide,
      (C3_tail_checks_amended (⟨⟨fun n => n + 1, 5⟩, 6,
          LOG_TAIL_MAGIC, true⟩ : SFrame Nat Nat)).2.2.1 (by decide)⟩⟩

/- ===================== Request dispatcher (src/ae/memcached/comm.hpp, orthrus/server.cpp) ===================== -/

/-- Outcome of fd_reader::read_packet when the connection buffer is empty
and the socket read does not deliver data. -/
inductive ReadOutcome where
  | exitProcess
  | noPacket
  deriving DecidableEq, Repr

/-- Failure mode of read(2) inside read_from_socket: return 0 on an orderly
client close (errno untouched, 0), or -1 with EAGAIN/EWOULDBLOCK on a
drained non-blocking socket. -/
inductive FailedRead where
  | closedByClient
  | wouldBlock
  deriving DecidableEq, Repr

/-- Branch of fd_reader::read_packet, comm.hpp lines 70-80: when
read_from_socket reports failure, errno = 0 (a 0-byte read: the client
closed) prints and calls exit(0) -- terminating the whole dispatcher
process -- while EAGAIN/EWOULDBLOCK just yields no packet. -/
def read_packet_on_empty : FailedRead → ReadOutcome
  | FailedRead.closedByClient => ReadOutcome.exitProcess
  | FailedRead.wouldBlock => ReadOutcome.noPacket

/-- Bytes of the string quit. -/
def quitBytes : List Nat := [113, 117, 105, 116]

/-- Test of fd_worker::run, server.cpp line 70: memcmp(packet, quit, 4) = 0
makes run() return true. -/
def fd_worker_quit (packet : List Nat) : Bool :=
  packet.take 4 = quitBytes

/-- Event mask bits used by the dispatcher loop (Linux epoll values). -/
def EPOLLIN : Nat := 1

def EPOLLERR : Nat := 8

def EPOLLHUP : Nat := 16

/-- Per-event action of the Start loop. -/
inductive LoopAction where
  | acceptNewConns
  | closeAndErase (fd : Nat)
  | returnFromStart
  | continueServing
  deriving DecidableEq, Repr

/-- Event dispatch of Start, server.cpp lines 185-208: the listen fd accepts;
an EPOLLERR/EPOLLHUP event without EPOLLIN closes that fd and erases its
worker map entry, and the loop continues; otherwise the worker runs, and a
true return from run() (the quit path) makes Start itself return, ending the
dispatch loop of the whole group. -/
def dispatch_event (listen_fd fd flags : Nat) (runReturnsTrue : Bool) :
    LoopAction :=
  if fd = listen_fd then LoopAction.acceptNewConns
  else if flags &&& (EPOLLERR ||| EPOLLHUP) ≠ 0 ∧ flags &&& EPOLLIN = 0 then
    LoopAction.closeAndErase fd
  else if runReturnsTrue then LoopAction.returnFromStart
  else LoopAction.continueServing

/-- C9 (counterexample): a request beginning with quit makes run() return
true and the dispatcher returns from Start -- it does not erase the worker
entry and keep serving the other connections -- and a 0-byte read makes the
process exit(0) rather than closing only that connection. -/
theorem C9_counterexample :
    fd_worker_quit [113, 117, 105, 116, 10] = true ∧
    dispatch_event 3 5 EPOLLIN
        (fd_worker_quit [113, 117, 105, 116, 10])
      = LoopAction.returnFromStart ∧
    dispatch_event 3 5 EPOLLIN (fd_worker_quit [113, 117, 105, 116, 10])
      ≠ LoopAction.closeAndErase 5 ∧
    read_packet_on_empty FailedRead.closedByClient
      = ReadOutcome.exitProcess ∧
    ReadOutcome.exitProcess ≠ ReadOutcome.noPacket := by
  decide

/-- C9 (amended): only an EPOLLERR/EPOLLHUP event without EPOLLIN moves the
single connection to CLOSED and erases its worker map entry while the group
keeps serving; a request beginning with quit makes run() return true, upon
which Start returns and the whole group loop ends, and a 0-byte read
(orderly client close) calls exit(0), terminating the dispatcher process. -/
theorem C9_teardown_amended :
    (∀ lfd fd flags : Nat, ∀ r : Bool, fd ≠ lfd →
        flags &&& (EPOLLERR ||| EPOLLHUP) ≠ 0 → flags &&& EPOLLIN = 0 →
        dispatch_event lfd fd flags r = LoopAction.closeAndErase fd) ∧
    (∀ packet : List Nat, packet.take 4 = quitBytes →
        fd_worker_quit packet = true) ∧
    (∀ lfd fd flags : Nat, fd ≠ lfd →
        ¬ (flags &&& (EPOLLERR ||| EPOLLHUP) ≠ 0 ∧ flags &&& EPOLLIN = 0) →
        dispatch_event lfd fd flags true = LoopAction.returnFromStart ∧
        dispatch_event lfd fd flags false = LoopAction.continueServing) ∧
    read_packet_on_empty FailedRead.closedByClient
      = ReadOutcome.exitProcess ∧
    read_packet_on_empty FailedRead.wouldBlock = ReadOutcome.noPacket := by
  refine ⟨?_, ?_, ?_, rfl, rfl⟩
  · intro lfd fd flags r hfd herr hin
    unfold dispatch_event
    rw [if_neg hfd, if_pos ⟨herr, hin⟩]
  · intro packet h
    unfold fd_worker_quit
    rw [h]
    simp
  · intro lfd fd flags hfd hcond
    unfold dispatch_event
    rw [if_neg hfd, if_neg hcond, if_pos rfl]
    refine ⟨rfl, ?_⟩
    rw [if_neg hfd, if_neg hcond]
    rfl

/-- C9 witness: concrete fds and masks exercising the hangup close, the quit
return and the exit on a 0-byte read. -/
theorem C9_witness :
    ((5 : Nat) ≠ 3 ∧ (EPOLLHUP &&& (EPOLLERR ||| EPOLLHUP) ≠ 0) ∧
      EPOLLHUP &&& EPOLLIN = 0 ∧
      dispatch_event 3 5 EPOLLHUP false = LoopAction.closeAndErase 5) ∧
    ((5 : Nat) ≠ 3 ∧
      dispatch_event 3 5 EPOLLIN true = LoopAction.returnFromStart) :=
  ⟨⟨by decide, by decide, by decide,
      C9_teardown_amended.1 3 5 EPOLLHUP false (by decide) (by decide)
        (by decide)⟩,
    ⟨by decide,
      ((C9_teardown_amended.2.2.1) 3 5 EPOLLIN (by decide)
        (by decide)).1⟩⟩
